import Mathlib

/-!
Verification of the dithering/threshold engine of the miw2-deploy asset scripts.

The embedding models the numeric core of the five Python scripts:
ordered-dither threshold matrices (Bayer constructions and the classic
Macintosh 8x8 halftone table), matrix tiling, per-pixel thresholding,
black-background cropping, and the batch drivers' exit-code logic.
Python floats are modelled as rationals (every value arising in these
programs is a small dyadic rational, far from any floating-point rounding
boundary), images as lists of rows, and numpy arrays as lists of lists.
-/

namespace MIW

/-! ### Numpy-style helpers on rational grids -/

/-- Elementwise map over a matrix (list of rows). -/
def matMap (f : ℚ → ℚ) (A : List (List ℚ)) : List (List ℚ) := A.map (·.map f)

/-- Scalar multiplication `c * A` of a matrix, as in `4 * base`. -/
def matScale (c : ℚ) (A : List (List ℚ)) : List (List ℚ) := matMap (fun v => c * v) A

/-- Elementwise addition of a constant, as in `4 * base + 2`. -/
def matAddC (A : List (List ℚ)) (c : ℚ) : List (List ℚ) := matMap (fun v => v + c) A

/-- Elementwise division by a scalar, as in `matrix / 4.0`. -/
def matDiv (A : List (List ℚ)) (c : ℚ) : List (List ℚ) := matMap (fun v => v / c) A

/-- Embedding of `np.block([[A, B], [C, D]])` for equally sized quadrants. -/
def npBlock (A B C D : List (List ℚ)) : List (List ℚ) :=
  List.zipWith (· ++ ·) A B ++ List.zipWith (· ++ ·) C D

/-- Cell access `A[y, x]` with 0 as out-of-range default. -/
def matGet (A : List (List ℚ)) (y x : ℕ) : ℚ := (A.getD y []).getD x 0

/-! ### The three Bayer-matrix builders of the repository -/

/-- Embedding of `create_bayer_matrix` from `compress-backgrounds-v2.py`:
literal normalized 2x2 and 4x4 matrices; the 8x8 case is
`np.block([[4*base, 4*base + 2], [4*base + 3, 4*base + 1]]) / 4.0`
with `base = create_bayer_matrix(4)` (already normalized). Unsupported
sizes raise `ValueError`, modelled as the empty matrix. -/
def create_bayer_matrix_v2 : ℕ → List (List ℚ)
  | 2 => matDiv [[0, 2], [3, 1]] 4
  | 4 => matDiv [[0, 8, 2, 10], [12, 4, 14, 6], [3, 11, 1, 9], [15, 7, 13, 5]] 16
  | 8 =>
    let base := create_bayer_matrix_v2 4
    matDiv (npBlock (matScale 4 base) (matAddC (matScale 4 base) 2)
      (matAddC (matScale 4 base) 3) (matAddC (matScale 4 base) 1)) 4
  | _ => []

/-- Embedding of `create_bayer_matrix` from `compress-backgrounds-v3.py`.
The numpy strided slice assignments `bayer4[r::2, s::2] = bayer2 / 4 + off`
place `bayer2[a][b] / 4 + off` at cell `(2a + r, 2b + s)`; equivalently cell
`(i, j)` holds `bayer2[i / 2][j / 2] / 4 + off (i % 2) (j % 2)` with offsets
`off 0 0 = 0`, `off 0 1 = 1/2`, `off 1 0 = 3/4`, `off 1 1 = 1/4`. The 8x8
case assigns quadrant `(i, j)` the block `bayer4 / 4 + (i*2 + j) / 4`, so
cell `(y, x)` holds `bayer4[y % 4][x % 4] / 4 + ((y / 4) * 2 + x / 4) / 4`. -/
def create_bayer_matrix_v3 : ℕ → List (List ℚ)
  | 2 => matDiv [[0, 2], [3, 1]] 4
  | 4 =>
    (List.range 4).map (fun i => (List.range 4).map (fun j =>
      matGet (create_bayer_matrix_v3 2) (i / 2) (j / 2) / 4 +
        (if i % 2 = 0 then (if j % 2 = 0 then 0 else 1/2)
         else (if j % 2 = 0 then 3/4 else 1/4))))
  | 8 =>
    (List.range 8).map (fun y => (List.range 8).map (fun x =>
      matGet (create_bayer_matrix_v3 4) (y % 4) (x % 4) / 4 +
        (((y / 4) * 2 + x / 4 : ℕ) : ℚ) / 4))
  | _ => []

/-- One step of the unnormalized recursive Bayer construction,
`np.block([[4*B, 4*B + 2], [4*B + 3, 4*B + 1]])`, shared textually by
`create-texture-assets.py` and `create-classic-mac-textures.py`. -/
def bayerBlockStep (B : List (List ℚ)) : List (List ℚ) :=
  npBlock (matScale 4 B) (matAddC (matScale 4 B) 2)
    (matAddC (matScale 4 B) 3) (matAddC (matScale 4 B) 1)

/-- Embedding of `create_bayer_matrix` from `create-texture-assets.py` (the
identical function also appears in `create-classic-mac-textures.py`): base
case `[[0, 2], [3, 1]]` with NO normalization, recursive case
`np.block([[4*smaller, 4*smaller + 2], [4*smaller + 3, 4*smaller + 1]])`
with `smaller = create_bayer_matrix(size // 2)`. The source recursion is
unfolded here for the power-of-two sizes the repository uses (2, 4, 8);
other sizes never terminate or are never called in the source. -/
def create_bayer_matrix_assets : ℕ → List (List ℚ)
  | 2 => [[0, 2], [3, 1]]
  | 4 => bayerBlockStep (create_bayer_matrix_assets 2)
  | 8 => bayerBlockStep (create_bayer_matrix_assets 4)
  | _ => []

/-- Unnormalized integer-level Bayer matrix following the specification's
reference recursion read in the level domain: base `[[0, 2], [3, 1]]`,
recursive case `[[4B, 4B + 2], [4B + 3, 4B + 1]]` from `B = levels (N/2)`. -/
def specBayerLevels : ℕ → List (List ℚ)
  | 2 => [[0, 2], [3, 1]]
  | 4 => bayerBlockStep (specBayerLevels 2)
  | 8 => bayerBlockStep (specBayerLevels 4)
  | _ => []

/-- The specification's reference Bayer matrix (refinement target, written
from the spec's words, not from the source): the recursion above, with the
whole result divided by `N^2` at the end, so all cells lie in `[0, 1)`. -/
def specBayer (n : ℕ) : List (List ℚ) := matDiv (specBayerLevels n) ((n * n : ℕ) : ℚ)

/-! ### Integer level lists (row-major) used to settle counting claims -/

/-- Integer levels of the 2x2 Bayer matrix, row-major. -/
def bayerL2 : List ℕ := [0, 2, 3, 1]

/-- Integer levels of the standard 4x4 Bayer matrix, row-major. -/
def bayerL4 : List ℕ :=
  [0, 8, 2, 10, 12, 4, 14, 6, 3, 11, 1, 9, 15, 7, 13, 5]

/-- Integer levels of the standard (bit-interleaved) 8x8 Bayer matrix. -/
def bayerL8 : List ℕ :=
  [0, 32, 8, 40, 2, 34, 10, 42,
   48, 16, 56, 24, 50, 18, 58, 26,
   12, 44, 4, 36, 14, 46, 6, 38,
   60, 28, 52, 20, 62, 30, 54, 22,
   3, 35, 11, 43, 1, 33, 9, 41,
   51, 19, 59, 27, 49, 17, 57, 25,
   15, 47, 7, 39, 13, 45, 5, 37,
   63, 31, 55, 23, 61, 29, 53, 21]

/-- Integer levels of the quadrant-offset 8x8 Bayer matrix of v3. -/
def bayerL8v3 : List ℕ :=
  [0, 8, 2, 10, 16, 24, 18, 26,
   12, 4, 14, 6, 28, 20, 30, 22,
   3, 11, 1, 9, 19, 27, 17, 25,
   15, 7, 13, 5, 31, 23, 29, 21,
   32, 40, 34, 42, 48, 56, 50, 58,
   44, 36, 46, 38, 60, 52, 62, 54,
   35, 43, 33, 41, 51, 59, 49, 57,
   47, 39, 45, 37, 63, 55, 61, 53]

/-- Sixty-fourths actually produced by v2's 8x8 builder (not a permutation
of `[0, 64)`: it scales the already normalized 4x4 base). -/
def bayerL8v2 : List ℕ :=
  [0, 32, 8, 40, 32, 64, 40, 72,
   48, 16, 56, 24, 80, 48, 88, 56,
   12, 44, 4, 36, 44, 76, 36, 68,
   60, 28, 52, 20, 92, 60, 84, 52,
   48, 80, 56, 88, 16, 48, 24, 56,
   96, 64, 104, 72, 64, 32, 72, 40,
   60, 92, 52, 84, 28, 60, 20, 52,
   108, 76, 100, 68, 76, 44, 68, 36]

/-- Value of integer level `t` on the `[0, 1)` scale with denominator `m`. -/
def natToLevel (m : ℕ) (t : ℕ) : ℚ := (t : ℚ) / (m : ℚ)

lemma natToLevel_injective {m : ℕ} (hm : m ≠ 0) : Function.Injective (natToLevel m) := by
  intro a b h
  have hm' : (m : ℚ) ≠ 0 := Nat.cast_ne_zero.mpr hm
  unfold natToLevel at h
  have hab : (a : ℚ) = (b : ℚ) := by
    have := div_left_inj' hm' |>.mp h
    exact this
  exact_mod_cast hab

lemma count_levels {A : List ℚ} {L : List ℕ} {m : ℕ} (hm : m ≠ 0)
    (h : A = L.map (natToLevel m)) (k : ℕ) :
    A.count (natToLevel m k) = L.count k := by
  rw [h]
  exact List.count_map_of_injective L (natToLevel m) (natToLevel_injective hm) k

/-! ### Evaluation of the builders down to their integer level lists -/

lemma v2_flat_two : (create_bayer_matrix_v2 2).flatten = bayerL2.map (natToLevel 4) := by
  norm_num [create_bayer_matrix_v2, matDiv, matMap, bayerL2, natToLevel]

lemma v2_flat_four : (create_bayer_matrix_v2 4).flatten = bayerL4.map (natToLevel 16) := by
  norm_num [create_bayer_matrix_v2, matDiv, matMap, bayerL4, natToLevel]

lemma v2_flat_eight : (create_bayer_matrix_v2 8).flatten = bayerL8v2.map (natToLevel 64) := by
  norm_num [create_bayer_matrix_v2, matDiv, matMap, matScale, matAddC, npBlock,
    bayerL8v2, natToLevel]

lemma v3_flat_two : (create_bayer_matrix_v3 2).flatten = bayerL2.map (natToLevel 4) := by
  norm_num [create_bayer_matrix_v3, matDiv, matMap, bayerL2, natToLevel]

lemma v3_flat_four : (create_bayer_matrix_v3 4).flatten = bayerL4.map (natToLevel 16) := by
  norm_num [create_bayer_matrix_v3, matDiv, matMap, matGet, bayerL4, natToLevel,
    List.range_succ]

lemma v3_flat_eight : (create_bayer_matrix_v3 8).flatten = bayerL8v3.map (natToLevel 64) := by
  norm_num [create_bayer_matrix_v3, matDiv, matMap, matGet, bayerL8v3, natToLevel,
    List.range_succ]

lemma assets_flat_two :
    (create_bayer_matrix_assets 2).flatten = bayerL2.map (Nat.cast : ℕ → ℚ) := by
  norm_num [create_bayer_matrix_assets, bayerL2]

lemma assets_flat_four :
    (create_bayer_matrix_assets 4).flatten = bayerL4.map (Nat.cast : ℕ → ℚ) := by
  norm_num [create_bayer_matrix_assets, bayerBlockStep, npBlock, matScale, matAddC,
    matMap, bayerL4]

lemma assets_flat_eight :
    (create_bayer_matrix_assets 8).flatten = bayerL8.map (Nat.cast : ℕ → ℚ) := by
  norm_num [create_bayer_matrix_assets, bayerBlockStep, npBlock, matScale, matAddC,
    matMap, bayerL8]

lemma v2_two_eval : create_bayer_matrix_v2 2 = [[0, 1/2], [3/4, 1/4]] := by
  norm_num [create_bayer_matrix_v2, matDiv, matMap]

lemma v2_four_eval :
    create_bayer_matrix_v2 4 =
      [[0, 1/2, 1/8, 5/8], [3/4, 1/4, 7/8, 3/8],
       [3/16, 11/16, 1/16, 9/16], [15/16, 7/16, 13/16, 5/16]] := by
  norm_num [create_bayer_matrix_v2, matDiv, matMap]

lemma v3_four_eval :
    create_bayer_matrix_v3 4 =
      [[0, 1/2, 1/8, 5/8], [3/4, 1/4, 7/8, 3/8],
       [3/16, 11/16, 1/16, 9/16], [15/16, 7/16, 13/16, 5/16]] := by
  norm_num [create_bayer_matrix_v3, matDiv, matMap, matGet, List.range_succ]

lemma v2_eight_cell_70 : matGet (create_bayer_matrix_v2 8) 7 0 = 27 / 16 := by
  norm_num [create_bayer_matrix_v2, matDiv, matMap, matScale, matAddC, npBlock, matGet]

lemma v2_eight_cell_04 : matGet (create_bayer_matrix_v2 8) 0 4 = 1 / 2 := by
  norm_num [create_bayer_matrix_v2, matDiv, matMap, matScale, matAddC, npBlock, matGet]

lemma v3_eight_cell_04 : matGet (create_bayer_matrix_v3 8) 0 4 = 1 / 4 := by
  norm_num [create_bayer_matrix_v3, matDiv, matMap, matGet, List.range_succ]

lemma spec_eight_cell_04 : matGet (specBayer 8) 0 4 = 1 / 32 := by
  norm_num [specBayer, specBayerLevels, bayerBlockStep, npBlock, matScale, matAddC,
    matDiv, matMap, matGet]

/-- C1. Uniform level coverage of the Bayer builders. The builders of v3 and
of the texture-asset scripts, and v2's sizes 2 and 4, cover each integer
level of `[0, N^2)` exactly once; v2's size-8 builder violates the
invariant: the normalized value `32/64` occupies three cells, level `2` is
missing, and cell `(7, 0)` holds `27/16`, outside `[0, 1)` (its base is
already normalized, so scaling by 4 and dividing by 4 is not the level
recursion). -/
theorem bayer_level_coverage_and_v2_size8_defect :
    (∀ k : Fin 4, (create_bayer_matrix_v2 2).flatten.count (natToLevel 4 k.val) = 1) ∧
    (∀ k : Fin 16, (create_bayer_matrix_v2 4).flatten.count (natToLevel 16 k.val) = 1) ∧
    (∀ k : Fin 4, (create_bayer_matrix_v3 2).flatten.count (natToLevel 4 k.val) = 1) ∧
    (∀ k : Fin 16, (create_bayer_matrix_v3 4).flatten.count (natToLevel 16 k.val) = 1) ∧
    (∀ k : Fin 64, (create_bayer_matrix_v3 8).flatten.count (natToLevel 64 k.val) = 1) ∧
    (∀ k : Fin 4, (create_bayer_matrix_assets 2).flatten.count ((k.val : ℚ)) = 1) ∧
    (∀ k : Fin 16, (create_bayer_matrix_assets 4).flatten.count ((k.val : ℚ)) = 1) ∧
    (∀ k : Fin 64, (create_bayer_matrix_assets 8).flatten.count ((k.val : ℚ)) = 1) ∧
    (create_bayer_matrix_v2 8).flatten.count (natToLevel 64 32) = 3 ∧
    (create_bayer_matrix_v2 8).flatten.count (natToLevel 64 2) = 0 ∧
    matGet (create_bayer_matrix_v2 8) 7 0 = 27 / 16 := by
  have h2 : ∀ k : Fin 4, bayerL2.count k.val = 1 := by decide
  have h4 : ∀ k : Fin 16, bayerL4.count k.val = 1 := by decide
  have h8v3 : ∀ k : Fin 64, bayerL8v3.count k.val = 1 := by decide
  have h8 : ∀ k : Fin 64, bayerL8.count k.val = 1 := by decide
  refine ⟨?_, ?_, ?_, ?_, ?_, ?_, ?_, ?_, ?_, ?_, ?_⟩
  · intro k; rw [count_levels (by norm_num) v2_flat_two]; exact h2 k
  · intro k; rw [count_levels (by norm_num) v2_flat_four]; exact h4 k
  · intro k; rw [count_levels (by norm_num) v3_flat_two]; exact h2 k
  · intro k; rw [count_levels (by norm_num) v3_flat_four]; exact h4 k
  · intro k; rw [count_levels (by norm_num) v3_flat_eight]; exact h8v3 k
  · intro k
    rw [assets_flat_two, List.count_map_of_injective bayerL2 _ Nat.cast_injective k.val]
    revert k; decide
  · intro k
    rw [assets_flat_four, List.count_map_of_injective bayerL4 _ Nat.cast_injective k.val]
    revert k; decide
  · intro k
    rw [assets_flat_eight, List.count_map_of_injective bayerL8 _ Nat.cast_injective k.val]
    revert k; decide
  · rw [count_levels (by norm_num) v2_flat_eight]; decide
  · rw [count_levels (by norm_num) v2_flat_eight]; decide
  · exact v2_eight_cell_70

/-- C2 counterexample. The claim is false as stated: the builder of
`create-texture-assets.py` never normalizes, so its 2x2 matrix holds the
integer `3` at cell `(1, 0)` — not a value of the spec's normalized
reference matrix (which holds `3/4` there) and not in `[0, 1)`. -/
theorem assets_builder_unnormalized_counterexample :
    matGet (create_bayer_matrix_assets 2) 1 0 = 3 ∧
    ¬ matGet (create_bayer_matrix_assets 2) 1 0 < 1 ∧
    matGet (specBayer 2) 1 0 = 3 / 4 ∧
    matGet (create_bayer_matrix_assets 2) 1 0 ≠ matGet (specBayer 2) 1 0 := by
  refine ⟨?_, ?_, ?_, ?_⟩ <;>
    norm_num [create_bayer_matrix_assets, specBayer, specBayerLevels, matDiv, matMap,
      matGet]

/-- C2 amended. v2's builder equals the spec's reference recursion (with all
cells in `[0, 1)`) at sizes 2 and 4; the texture-asset builder returns
exactly `N^2` times the spec matrix (the unnormalized integer levels) at all
three sizes; v2's size-8 matrix deviates from the spec recursion and has the
out-of-range cell `(7, 0) = 27/16`. -/
theorem bayer_builders_vs_spec_recursion :
    create_bayer_matrix_v2 2 = specBayer 2 ∧
    create_bayer_matrix_v2 4 = specBayer 4 ∧
    (∀ i j : Fin 2, 0 ≤ matGet (create_bayer_matrix_v2 2) i j ∧
      matGet (create_bayer_matrix_v2 2) i j < 1) ∧
    (∀ i j : Fin 4, 0 ≤ matGet (create_bayer_matrix_v2 4) i j ∧
      matGet (create_bayer_matrix_v2 4) i j < 1) ∧
    create_bayer_matrix_assets 2 = matScale 4 (specBayer 2) ∧
    create_bayer_matrix_assets 4 = matScale 16 (specBayer 4) ∧
    create_bayer_matrix_assets 8 = matScale 64 (specBayer 8) ∧
    create_bayer_matrix_v2 8 ≠ specBayer 8 ∧
    matGet (create_bayer_matrix_v2 8) 7 0 = 27 / 16 := by
  refine ⟨?_, ?_, ?_, ?_, ?_, ?_, ?_, ?_, v2_eight_cell_70⟩
  · norm_num [create_bayer_matrix_v2, specBayer, specBayerLevels, matDiv, matMap]
  · norm_num [create_bayer_matrix_v2, specBayer, specBayerLevels, bayerBlockStep,
      npBlock, matScale, matAddC, matDiv, matMap]
  · intro i j
    rw [v2_two_eval]
    fin_cases i <;> fin_cases j <;> norm_num [matGet]
  · intro i j
    rw [v2_four_eval]
    fin_cases i <;> fin_cases j <;> norm_num [matGet]
  · norm_num [create_bayer_matrix_assets, specBayer, specBayerLevels, bayerBlockStep,
      npBlock, matScale, matAddC, matDiv, matMap]
  · norm_num [create_bayer_matrix_assets, specBayer, specBayerLevels, bayerBlockStep,
      npBlock, matScale, matAddC, matDiv, matMap]
  · norm_num [create_bayer_matrix_assets, specBayer, specBayerLevels, bayerBlockStep,
      npBlock, matScale, matAddC, matDiv, matMap]
  · intro h
    have h2 : matGet (create_bayer_matrix_v2 8) 0 4 = matGet (specBayer 8) 0 4 := by
      rw [h]
    rw [v2_eight_cell_04, spec_eight_cell_04] at h2
    norm_num at h2

/-- C8. The two Bayer construction variants agree at sizes 2 and 4 but are
not numerically identical at size 8: cell `(0, 4)` holds `1/2` in v2's
interleaved/block matrix and `1/4` in v3's quadrant-offset matrix. -/
theorem bayer_variants_differ_at_size8 :
    create_bayer_matrix_v2 2 = create_bayer_matrix_v3 2 ∧
    create_bayer_matrix_v2 4 = create_bayer_matrix_v3 4 ∧
    matGet (create_bayer_matrix_v2 8) 0 4 = 1 / 2 ∧
    matGet (create_bayer_matrix_v3 8) 0 4 = 1 / 4 ∧
    create_bayer_matrix_v2 8 ≠ create_bayer_matrix_v3 8 := by
  refine ⟨?_, ?_, v2_eight_cell_04, v3_eight_cell_04, ?_⟩
  · norm_num [create_bayer_matrix_v2, create_bayer_matrix_v3]
  · rw [v2_four_eval, v3_four_eval]
  · intro h
    have h2 : matGet (create_bayer_matrix_v2 8) 0 4 =
        matGet (create_bayer_matrix_v3 8) 0 4 := by rw [h]
    rw [v2_eight_cell_04, v3_eight_cell_04] at h2
    norm_num at h2

/-! ### The classic Macintosh 8x8 halftone table -/

/-- Integer (sixty-fourths) value of entry `p` of the classic Mac threshold
table, as computed inside `create_classic_mac_threshold_table` in
`create-classic-mac-textures.py`: `q = p ^ (p >> 3)` and the 6-bit
interleaving of bits of `p` and `q`. -/
def macNum (p : ℕ) : ℕ :=
  let q := p ^^^ (p >>> 3)
  ((p &&& 4) >>> 2) ||| ((q &&& 4) >>> 1) |||
    ((p &&& 2) <<< 1) ||| ((q &&& 2) <<< 2) |||
    ((p &&& 1) <<< 4) ||| ((q &&& 1) <<< 5)

/-- Embedding of `create_classic_mac_threshold_table`: the 64-entry list
with `table[p] = value / 64`. -/
def create_classic_mac_threshold_table : List ℚ :=
  (List.range 64).map (fun p => (macNum p : ℚ) / 64)

/-- Embedding of `create_mac_dithered_pattern` (pixel colors only; the
PNG encoding is external): row-major 8x8 list of booleans, `true` = white,
where pixel `(x, y)` is white when `lightness > table[(x & 7) + ((y & 7) << 3)]`,
flipped when `invert` is set. -/
def create_mac_dithered_pattern (lightness : ℚ) (invert : Bool) : List Bool :=
  ((List.range 8).map (fun y => (List.range 8).map (fun x =>
    let pxWhite := decide (lightness > create_classic_mac_threshold_table.getD
      ((x &&& 7) + ((y &&& 7) <<< 3)) 0)
    if invert then !pxWhite else pxWhite))).flatten

lemma getD_map_range {α : Type} (n : ℕ) (f : ℕ → α) (i : ℕ) (hi : i < n) (d : α) :
    ((List.range n).map f).getD i d = f i := by
  have hlen : i < ((List.range n).map f).length := by simpa using hi
  rw [List.getD_eq_getElem _ _ hlen, List.getElem_map, List.getElem_range]

lemma flatten_getD_of_uniform {α : Type} (L : List (List α)) (n : ℕ)
    (hL : ∀ row ∈ L, row.length = n) (y x : ℕ) (hy : y < L.length) (hx : x < n)
    (d : α) (dr : List α) :
    L.flatten.getD (y * n + x) d = (L.getD y dr).getD x d := by
  induction L generalizing y with
  | nil => simp at hy
  | cons r rest ih =>
    have hr : r.length = n := hL r (by simp)
    cases y with
    | zero =>
      simp only [List.flatten_cons, Nat.zero_mul, Nat.zero_add, List.getD_cons_zero]
      exact List.getD_append r rest.flatten d x (by omega)
    | succ y =>
      have hidx : r.length ≤ (y + 1) * n + x := by
        rw [hr]; nlinarith
      rw [List.flatten_cons, List.getD_append_right r rest.flatten d _ hidx,
        List.getD_cons_succ]
      have harith : (y + 1) * n + x - r.length = y * n + x := by
        rw [hr]; ring_nf; omega
      rw [harith]
      exact ih (fun row hrow => hL row (by simp [hrow])) y (by simpa using hy)

lemma mac_table_getD (p : ℕ) (hp : p < 64) :
    create_classic_mac_threshold_table.getD p 0 = (macNum p : ℚ) / 64 := by
  unfold create_classic_mac_threshold_table
  exact getD_map_range 64 _ p hp 0

/-- C3. The classic Mac threshold table is computed exactly by the
documented bit-interleaving formula: `table[p]` equals the 6-bit
interleaving of `p` and `q = p ^ (p >> 3)`, divided by 64 — in particular
at the boundary indices 0, 7, 56 and 63 — and the pattern rasterizer looks
a pixel `(x, y)` up at linear cell `(x & 7) + ((y & 7) << 3)`. -/
theorem mac_threshold_table_formula :
    (∀ p : Fin 64,
      create_classic_mac_threshold_table.getD p.val 0 =
        ((((p.val &&& 4) >>> 2) ||| (((p.val ^^^ (p.val >>> 3)) &&& 4) >>> 1) |||
          ((p.val &&& 2) <<< 1) ||| (((p.val ^^^ (p.val >>> 3)) &&& 2) <<< 2) |||
          ((p.val &&& 1) <<< 4) ||| (((p.val ^^^ (p.val >>> 3)) &&& 1) <<< 5) : ℕ) : ℚ)
          / 64) ∧
    create_classic_mac_threshold_table.getD 0 0 = 0 ∧
    create_classic_mac_threshold_table.getD 7 0 = 63 / 64 ∧
    create_classic_mac_threshold_table.getD 56 0 = 21 / 32 ∧
    create_classic_mac_threshold_table.getD 63 0 = 21 / 64 ∧
    (∀ (x y : Fin 8) (lightness : ℚ) (invert : Bool),
      (create_mac_dithered_pattern lightness invert).getD (y.val * 8 + x.val) false =
        (if invert
         then ! decide (lightness > create_classic_mac_threshold_table.getD
            ((x.val &&& 7) + ((y.val &&& 7) <<< 3)) 0)
         else decide (lightness > create_classic_mac_threshold_table.getD
            ((x.val &&& 7) + ((y.val &&& 7) <<< 3)) 0))) := by
  refine ⟨?_, ?_, ?_, ?_, ?_, ?_⟩
  · intro p
    rw [mac_table_getD p.val p.isLt]
    rfl
  · rw [mac_table_getD 0 (by norm_num), show macNum 0 = 0 from by decide]
    norm_num
  · rw [mac_table_getD 7 (by norm_num), show macNum 7 = 63 from by decide]
    norm_num
  · rw [mac_table_getD 56 (by norm_num), show macNum 56 = 42 from by decide]
    norm_num
  · rw [mac_table_getD 63 (by norm_num), show macNum 63 = 21 from by decide]
    norm_num
  · intro x y lightness invert
    unfold create_mac_dithered_pattern
    rw [flatten_getD_of_uniform _ 8 ?_ y.val x.val ?_ x.isLt false []]
    · rw [getD_map_range 8 _ y.val y.isLt, getD_map_range 8 _ x.val x.isLt]
    · intro row hrow
      simp only [List.mem_map] at hrow
      obtain ⟨t, _, hrow⟩ := hrow
      simp [← hrow]
    · simp [y.isLt]

/-- C10. The classic Mac threshold table is a permutation of the 64
normalized levels: every value `k/64` with `k < 64` occupies exactly one
entry, and every entry lies in `[0, 1)`. -/
theorem mac_table_is_level_permutation :
    (∀ k : Fin 64, create_classic_mac_threshold_table.count (natToLevel 64 k.val) = 1) ∧
    (∀ p : Fin 64, 0 ≤ create_classic_mac_threshold_table.getD p.val 0 ∧
      create_classic_mac_threshold_table.getD p.val 0 < 1) := by
  constructor
  · have htab : create_classic_mac_threshold_table =
        ((List.range 64).map macNum).map (natToLevel 64) := by
      rw [List.map_map]
      simp [create_classic_mac_threshold_table, natToLevel, Function.comp]
    have hcount : ∀ k : Fin 64, ((List.range 64).map macNum).count k.val = 1 := by
      decide
    intro k
    rw [count_levels (by norm_num) htab k.val]
    exact hcount k
  · have hb : ∀ p : Fin 64, macNum p.val < 64 := by decide
    intro p
    rw [mac_table_getD p.val p.isLt]
    constructor
    · positivity
    · rw [div_lt_one (by norm_num)]
      exact_mod_cast hb p

/-! ### Per-pixel thresholding (the shared core of `apply_ordered_dithering`
in v2 and `apply_ordered_dither` in v3): `img_array > threshold_matrix` -/

/-- Embedding of the numpy comparison `(img_array > threshold_matrix)`:
elementwise strict comparison of a normalized grayscale buffer against a
threshold buffer, `true` = white. -/
def thresholdImage (img thr : List (List ℚ)) : List (List Bool) :=
  List.zipWith (fun rowg rowt => List.zipWith (fun g t => decide (g > t)) rowg rowt)
    img thr

lemma zipWith_getD {α β γ : Type} (f : α → β → γ) (a : List α) (b : List β) (i : ℕ)
    (hia : i < a.length) (hib : i < b.length) (da : α) (db : β) (dc : γ) :
    (List.zipWith f a b).getD i dc = f (a.getD i da) (b.getD i db) := by
  have hlen : i < (List.zipWith f a b).length := by
    rw [List.length_zipWith]; omega
  rw [List.getD_eq_getElem _ _ hlen, List.getElem_zipWith,
    List.getD_eq_getElem _ _ hia, List.getD_eq_getElem _ _ hib]

/-- C4. The thresholder marks an output pixel white exactly when the
grayscale sample strictly exceeds the threshold value at that position; a
sample equal to its threshold yields black; and the output is a pure
function of its inputs (identical across repeated runs). -/
theorem thresholder_white_iff_strictly_greater :
    ∀ (img thr : List (List ℚ)) (y x : ℕ),
      y < img.length → img.length = thr.length →
      x < (img.getD y []).length →
      (img.getD y []).length = (thr.getD y []).length →
      ((((thresholdImage img thr).getD y []).getD x false = true ↔
        (img.getD y []).getD x 0 > (thr.getD y []).getD x 0) ∧
       ((img.getD y []).getD x 0 = (thr.getD y []).getD x 0 →
        ((thresholdImage img thr).getD y []).getD x false = false) ∧
       thresholdImage img thr = thresholdImage img thr) := by
  intro img thr y x hy hlen hx hrowlen
  have hcell : ((thresholdImage img thr).getD y []).getD x false =
      decide ((img.getD y []).getD x 0 > (thr.getD y []).getD x 0) := by
    unfold thresholdImage
    rw [zipWith_getD _ img thr y hy (by omega) [] []]
    rw [zipWith_getD _ _ _ x hx (by omega) 0 0]
  refine ⟨?_, ?_, rfl⟩
  · rw [hcell]; exact decide_eq_true_iff
  · intro he; rw [hcell, he]; simp

/-- Witness for C4 on concrete one-pixel buffers: `1/2 > 1/4` gives white,
and a sample equal to its threshold (`1/2` vs `1/2`) gives black. -/
theorem thresholder_white_iff_strictly_greater_witness :
    ((thresholdImage [[1/2]] [[1/4]]).getD 0 []).getD 0 false = true ∧
    ((thresholdImage [[1/2]] [[1/2]]).getD 0 []).getD 0 false = false := by
  constructor
  · exact (thresholder_white_iff_strictly_greater [[1/2]] [[1/4]] 0 0 (by simp)
      (by simp) (by simp) (by simp)).1.mpr (by norm_num)
  · exact (thresholder_white_iff_strictly_greater [[1/2]] [[1/2]] 0 0 (by simp)
      (by simp) (by simp) (by simp)).2.1 rfl

/-! ### Tiling a threshold matrix over the image canvas -/

/-- Embedding of `np.tile(A, (r, c))`: the grid repeated `r` times
vertically and `c` times horizontally. -/
def npTile (A : List (List ℚ)) (r c : ℕ) : List (List ℚ) :=
  (List.replicate r A).flatten.map (fun row => (List.replicate c row).flatten)

/-- Embedding of the crop `tiled[:height, :width]`. -/
def cropGrid (A : List (List ℚ)) (h w : ℕ) : List (List ℚ) :=
  (A.take h).map (·.take w)

/-- Tiling step of `apply_ordered_dithering` in v2: ceil-division tile
counts `(h + m - 1) // m` and `(w + m - 1) // m`, then crop. -/
def tiled_threshold_v2 (M : List (List ℚ)) (m h w : ℕ) : List (List ℚ) :=
  cropGrid (npTile M ((h + m - 1) / m) ((w + m - 1) / m)) h w

/-- Tiling step of `apply_ordered_dither` in v3: tile counts
`h // mh + 1` and `w // mw + 1`, then crop. -/
def tiled_threshold_v3 (M : List (List ℚ)) (mh mw h w : ℕ) : List (List ℚ) :=
  cropGrid (npTile M (h / mh + 1) (w / mw + 1)) h w

lemma flatten_replicate_length {α : Type} (r : ℕ) (A : List α) :
    (List.replicate r A).flatten.length = r * A.length := by
  induction r with
  | zero => simp
  | succ r ih => simp [List.replicate_succ, ih, Nat.succ_mul]; ring

lemma flatten_replicate_getD {α : Type} (r : ℕ) (A : List α) (y : ℕ) (d : α)
    (hy : y < r * A.length) :
    (List.replicate r A).flatten.getD y d = A.getD (y % A.length) d := by
  induction r generalizing y with
  | zero => omega
  | succ r ih =>
    rw [List.replicate_succ, List.flatten_cons]
    by_cases h : y < A.length
    · rw [List.getD_append _ _ _ _ h, Nat.mod_eq_of_lt h]
    · push_neg at h
      rw [List.getD_append_right _ _ _ _ h,
        ih (y - A.length) (by rw [Nat.succ_mul] at hy; omega),
        Nat.mod_eq_sub_mod h]

lemma getD_map_pres {α β : Type} (g : α → β) (da : α) (db : β) (hdb : g da = db)
    (L : List α) (i : ℕ) : (L.map g).getD i db = g (L.getD i da) := by
  induction L generalizing i with
  | nil => simp [hdb.symm]
  | cons a t ih =>
    cases i with
    | zero => simp
    | succ i => simpa using ih i

lemma getD_take {α : Type} (l : List α) (n i : ℕ) (d : α) (h : i < n) :
    (l.take n).getD i d = l.getD i d := by
  induction l generalizing n i with
  | nil => simp
  | cons a t ih =>
    cases n with
    | zero => omega
    | succ n =>
      cases i with
      | zero => simp
      | succ i =>
        simp only [List.take_succ_cons, List.getD_cons_succ]
        exact ih n i (by omega)

lemma flatten_replicate_nil {α : Type} (c : ℕ) :
    (List.replicate c ([] : List α)).flatten = [] := by
  induction c with
  | zero => rfl
  | succ c ih => simp [List.replicate_succ, ih]

lemma npTile_length (M : List (List ℚ)) (r c : ℕ) :
    (npTile M r c).length = r * M.length := by
  simp [npTile, flatten_replicate_length]

lemma npTile_getD (M : List (List ℚ)) (m r c y x : ℕ) (hM : M.length = m)
    (hrows : ∀ row ∈ M, row.length = m) (hy : y < r * m) (hx : x < c * m) :
    matGet (npTile M r c) y x = matGet M (y % m) (x % m) := by
  subst hM
  have hm : M.length ≠ 0 := by
    intro h0
    rw [h0, Nat.mul_zero] at hy
    omega
  unfold npTile matGet
  rw [getD_map_pres _ [] [] (flatten_replicate_nil c) _ y,
    flatten_replicate_getD r M y [] hy]
  have hidx : y % M.length < M.length := Nat.mod_lt _ (Nat.pos_of_ne_zero hm)
  have hgetin : M.getD (y % M.length) [] ∈ M := by
    rw [List.getD_eq_getElem _ _ hidx]
    exact List.getElem_mem _
  have hrl : (M.getD (y % M.length) []).length = M.length := hrows _ hgetin
  rw [flatten_replicate_getD c _ x 0 (by rw [hrl]; exact hx), hrl]

lemma cropGrid_getD (A : List (List ℚ)) (h w y x : ℕ) (hy : y < h) (hx : x < w) :
    matGet (cropGrid A h w) y x = matGet A y x := by
  unfold cropGrid matGet
  rw [getD_map_pres _ [] [] (List.take_nil) _ y, getD_take A h y [] hy,
    getD_take _ w x 0 hx]

lemma tile_crop_spec (M : List (List ℚ)) (m r c h w : ℕ) (hM : M.length = m)
    (hrows : ∀ row ∈ M, row.length = m) (hr : h ≤ r * m) (hc : w ≤ c * m) :
    (cropGrid (npTile M r c) h w).length = h ∧
    (∀ row ∈ cropGrid (npTile M r c) h w, row.length = w) ∧
    (∀ y x : ℕ, y < h → x < w →
      matGet (cropGrid (npTile M r c) h w) y x = matGet M (y % m) (x % m)) := by
  refine ⟨?_, ?_, ?_⟩
  · simp only [cropGrid, List.length_map, List.length_take, npTile_length, hM]
    omega
  · intro row hrow
    simp only [cropGrid, List.mem_map] at hrow
    obtain ⟨row0, hrow0, hroweq⟩ := hrow
    have hrow0A : row0 ∈ npTile M r c := List.take_subset h _ hrow0
    simp only [npTile, List.mem_map] at hrow0A
    obtain ⟨row1, hrow1, hrow1eq⟩ := hrow0A
    have hrow1M : row1 ∈ M := by
      rcases List.mem_flatten.mp hrow1 with ⟨l, hl, hmem⟩
      rwa [(List.eq_of_mem_replicate hl : l = M)] at hmem
    have hlen1 : row0.length = c * m := by
      rw [← hrow1eq, flatten_replicate_length, hrows row1 hrow1M]
    rw [← hroweq, List.length_take, hlen1]
    omega
  · intro y x hy hx
    rw [cropGrid_getD _ h w y x hy hx,
      npTile_getD M m r c y x hM hrows (by omega) (by omega)]

lemma ceil_cover (h k : ℕ) : h ≤ (h + k) / (k + 1) * (k + 1) := by
  have hd := Nat.div_add_mod (h + k) (k + 1)
  have hm : (h + k) % (k + 1) < k + 1 := Nat.mod_lt _ (Nat.succ_pos k)
  nlinarith [hd, hm]

lemma floor_succ_cover (h k : ℕ) : h ≤ (h / (k + 1) + 1) * (k + 1) := by
  have hd := Nat.div_add_mod h (k + 1)
  have hm : h % (k + 1) < k + 1 := Nat.mod_lt _ (Nat.succ_pos k)
  nlinarith [hd, hm]

lemma npTile_one_one (M : List (List ℚ)) : npTile M 1 1 = M := by
  simp [npTile]

lemma cropGrid_exact (M : List (List ℚ)) (m : ℕ) (hM : M.length = m)
    (hrows : ∀ row ∈ M, row.length = m) : cropGrid M m m = M := by
  unfold cropGrid
  rw [← hM, List.take_length]
  have hcong : ∀ row ∈ M, row.take M.length = row := by
    intro row hr
    rw [hM]
    rw [← hrows row hr, List.take_length]
  rw [List.map_congr_left hcong]
  exact List.map_id M

lemma v2_count_exact (m : ℕ) (hm : 1 ≤ m) : (m + m - 1) / m = 1 := by
  have h1 : m + m - 1 = (m - 1) + m := by omega
  rw [h1, Nat.add_div_right _ (by omega), Nat.div_eq_of_lt (by omega)]

lemma tile_v3_exact (M : List (List ℚ)) (m : ℕ) (hm : 1 ≤ m) (hM : M.length = m)
    (hrows : ∀ row ∈ M, row.length = m) :
    cropGrid (npTile M (m / m + 1) (m / m + 1)) m m = M := by
  rw [Nat.div_self (by omega)]
  have h2 : npTile M 2 2 = (M ++ M).map (fun row => row ++ row) := by
    simp [npTile, List.replicate_succ]
  rw [h2]
  unfold cropGrid
  rw [← List.map_take]
  have htake : (M ++ M).take m = M := by
    rw [← hM]
    exact List.take_left M M
  rw [htake, List.map_map]
  have hcong : ∀ row ∈ M, ((fun row => List.take m row) ∘ fun row => row ++ row) row
      = row := by
    intro row hr
    simp only [Function.comp]
    rw [← hrows row hr]
    exact List.take_left row row
  rw [List.map_congr_left hcong]
  exact List.map_id M

/-- C5. Tiling a square `m x m` threshold matrix over an `h x w` canvas (both
the v2 ceil-count variant and the v3 floor-plus-one variant) yields a buffer
of exactly `h` rows of `w` cells whose cell `(y, x)` is the matrix cell
`(y % m, x % m)` — origin-aligned repetition cropped at the edges — and an
exactly `m x m` target returns the matrix unchanged. -/
theorem tiled_threshold_buffer_spec :
    ∀ (M : List (List ℚ)) (m h w : ℕ),
      M.length = m → (∀ row ∈ M, row.length = m) → 1 ≤ m → 1 ≤ h → 1 ≤ w →
      ((tiled_threshold_v2 M m h w).length = h ∧
       (∀ row ∈ tiled_threshold_v2 M m h w, row.length = w) ∧
       (∀ y x : ℕ, y < h → x < w →
         matGet (tiled_threshold_v2 M m h w) y x = matGet M (y % m) (x % m)) ∧
       (tiled_threshold_v3 M m m h w).length = h ∧
       (∀ row ∈ tiled_threshold_v3 M m m h w, row.length = w) ∧
       (∀ y x : ℕ, y < h → x < w →
         matGet (tiled_threshold_v3 M m m h w) y x = matGet M (y % m) (x % m)) ∧
       (h = m → w = m →
         tiled_threshold_v2 M m h w = M ∧ tiled_threshold_v3 M m m h w = M)) := by
  intro M m h w hM hrows hm hh hw
  obtain ⟨k, rfl⟩ : ∃ k, m = k + 1 := ⟨m - 1, by omega⟩
  unfold tiled_threshold_v2 tiled_threshold_v3
  have hceilh : h ≤ (h + (k + 1) - 1) / (k + 1) * (k + 1) := by
    rw [show h + (k + 1) - 1 = h + k by omega]
    exact ceil_cover h k
  have hceilw : w ≤ (w + (k + 1) - 1) / (k + 1) * (k + 1) := by
    rw [show w + (k + 1) - 1 = w + k by omega]
    exact ceil_cover w k
  have s2 := tile_crop_spec M (k + 1) ((h + (k + 1) - 1) / (k + 1))
    ((w + (k + 1) - 1) / (k + 1)) h w hM hrows hceilh hceilw
  have s3 := tile_crop_spec M (k + 1) (h / (k + 1) + 1) (w / (k + 1) + 1) h w hM hrows
    (floor_succ_cover h k) (floor_succ_cover w k)
  refine ⟨s2.1, s2.2.1, s2.2.2, s3.1, s3.2.1, s3.2.2, ?_⟩
  intro he hwe
  subst he hwe
  constructor
  · rw [v2_count_exact (k + 1) (by omega), npTile_one_one,
      cropGrid_exact M (k + 1) hM hrows]
  · exact tile_v3_exact M (k + 1) hm hM hrows

/-- Witness for C5 on the concrete matrix `[[1, 2], [3, 4]]`, `m = 2`,
target `3 x 5` (cropped partial tiles) and `2 x 2` (exact fit). -/
theorem tiled_threshold_buffer_spec_witness :
    matGet (tiled_threshold_v2 [[1, 2], [3, 4]] 2 3 5) 2 4 =
      matGet [[1, 2], [3, 4]] (2 % 2) (4 % 2) ∧
    matGet (tiled_threshold_v3 [[1, 2], [3, 4]] 2 2 3 5) 2 4 =
      matGet [[1, 2], [3, 4]] (2 % 2) (4 % 2) ∧
    tiled_threshold_v2 [[1, 2], [3, 4]] 2 2 2 = [[1, 2], [3, 4]] ∧
    tiled_threshold_v3 [[1, 2], [3, 4]] 2 2 2 2 = [[1, 2], [3, 4]] := by
  have hrows : ∀ row ∈ ([[1, 2], [3, 4]] : List (List ℚ)), row.length = 2 := by
    intro row hr
    fin_cases hr <;> rfl
  have T35 := tiled_threshold_buffer_spec [[1, 2], [3, 4]] 2 3 5 (by simp) hrows
    (by omega) (by omega) (by omega)
  have T22 := tiled_threshold_buffer_spec [[1, 2], [3, 4]] 2 2 2 (by simp) hrows
    (by omega) (by omega) (by omega)
  exact ⟨T35.2.2.1 2 4 (by omega) (by omega), T35.2.2.2.2.2.1 2 4 (by omega) (by omega),
    (T22.2.2.2.2.2.2 rfl rfl).1, (T22.2.2.2.2.2.2 rfl rfl).2⟩

/-! ### Black-background cropping (`crop_black_background` in
`compress-backgrounds.py`, `compress-backgrounds-v2.py` and
`compress-backgrounds-v3.py`) -/

/-- Coordinates, as `(x, y)` pairs in scan order, of the cells of `row`
satisfying `pred`, starting at column `x0`. -/
def rowCoordsWhere {α : Type} (pred : α → Prop) [DecidablePred pred] (y : ℕ) :
    ℕ → List α → List (ℕ × ℕ)
  | _, [] => []
  | x, v :: vs =>
    (if pred v then [(x, y)] else []) ++ rowCoordsWhere pred y (x + 1) vs

/-- Coordinates of all grid cells satisfying `pred`, rows scanned from `y0`. -/
def gridCoordsWhere {α : Type} (pred : α → Prop) [DecidablePred pred] :
    ℕ → List (List α) → List (ℕ × ℕ)
  | _, [] => []
  | y, row :: rest => rowCoordsWhere pred y 0 row ++ gridCoordsWhere pred (y + 1) rest

/-- Embedding of `gray.point(lambda p: p > tolerance and 255)`: pixels
strictly above the tolerance become 255, the rest 0. -/
def point_gt (tol : ℚ) (gray : List (List ℚ)) : List (List ℕ) :=
  gray.map (·.map (fun p => if tol < p then 255 else 0))

/-- PIL `Image.getbbox` (the imaging library is external to the repository;
this follows its documented behavior): the bounding box
`(left, upper, right, lower)` — right and lower exclusive — of the nonzero
pixels, or `none` when every pixel is zero. -/
def getbbox (grid : List (List ℕ)) : Option (ℕ × ℕ × ℕ × ℕ) :=
  match gridCoordsWhere (fun v : ℕ => v ≠ 0) 0 grid with
  | [] => none
  | c :: cs =>
    some ((c :: cs).foldr (fun p a => min p.1 a) c.1,
          (c :: cs).foldr (fun p a => min p.2 a) c.2,
          (c :: cs).foldr (fun p a => max p.1 a) c.1 + 1,
          (c :: cs).foldr (fun p a => max p.2 a) c.2 + 1)

/-- Embedding of `image.crop((left, upper, right, lower))`. -/
def cropBox {α : Type} (img : List (List α)) : ℕ × ℕ × ℕ × ℕ → List (List α)
  | (left, upper, right, lower) =>
    ((img.drop upper).take (lower - upper)).map
      (fun row => (row.drop left).take (right - left))

/-- Embedding of `crop_black_background`: grayscale view via `g`, point,
`getbbox` of the pointed image, then crop the ORIGINAL image `img` (pixel
type `α`, possibly color) to the box; the original is returned unchanged
when the box is empty. -/
def crop_black_background {α : Type} (g : α → ℚ) (tol : ℚ)
    (img : List (List α)) : List (List α) :=
  match getbbox (point_gt tol (img.map (·.map g))) with
  | none => img
  | some bb => cropBox img bb

lemma rowCoordsWhere_map {α β : Type} (f : α → β) (pred : β → Prop)
    [DecidablePred pred] (y : ℕ) (row : List α) : ∀ x0 : ℕ,
    rowCoordsWhere pred y x0 (row.map f) =
      rowCoordsWhere (fun v => pred (f v)) y x0 row := by
  induction row with
  | nil => intro x0; rfl
  | cons v vs ih =>
    intro x0
    simp only [List.map_cons, rowCoordsWhere]
    by_cases h : pred (f v)
    · rw [if_pos h, ih (x0 + 1)]
    · rw [if_neg h, ih (x0 + 1)]

lemma gridCoordsWhere_map {α β : Type} (f : α → β) (pred : β → Prop)
    [DecidablePred pred] (L : List (List α)) : ∀ y0 : ℕ,
    gridCoordsWhere pred y0 (L.map (·.map f)) =
      gridCoordsWhere (fun v => pred (f v)) y0 L := by
  induction L with
  | nil => intro y0; rfl
  | cons row rest ih =>
    intro y0
    simp only [List.map_cons, gridCoordsWhere]
    rw [rowCoordsWhere_map f pred y0 row 0, ih (y0 + 1)]

lemma rowCoordsWhere_congr {α : Type} {p1 p2 : α → Prop} [DecidablePred p1]
    [DecidablePred p2] (hp : ∀ v, p1 v ↔ p2 v) (y : ℕ) (row : List α) :
    ∀ x0 : ℕ, rowCoordsWhere p1 y x0 row = rowCoordsWhere p2 y x0 row := by
  induction row with
  | nil => intro x0; rfl
  | cons v vs ih =>
    intro x0
    simp only [rowCoordsWhere]
    by_cases h : p1 v
    · rw [if_pos h, if_pos ((hp v).mp h), ih (x0 + 1)]
    · rw [if_neg h, if_neg (fun h2 => h ((hp v).mpr h2)), ih (x0 + 1)]

lemma gridCoordsWhere_congr {α : Type} {p1 p2 : α → Prop} [DecidablePred p1]
    [DecidablePred p2] (hp : ∀ v, p1 v ↔ p2 v) (L : List (List α)) :
    ∀ y0 : ℕ, gridCoordsWhere p1 y0 L = gridCoordsWhere p2 y0 L := by
  induction L with
  | nil => intro y0; rfl
  | cons row rest ih =>
    intro y0
    simp only [gridCoordsWhere]
    rw [rowCoordsWhere_congr hp y0 row 0, ih (y0 + 1)]

lemma rowCoordsWhere_mem {α : Type} (pred : α → Prop) [DecidablePred pred]
    (y : ℕ) (row : List α) (p : ℕ × ℕ) : ∀ x0 : ℕ,
    (p ∈ rowCoordsWhere pred y x0 row ↔
      ∃ j : Fin row.length, p = (x0 + j.val, y) ∧ pred (row.get j)) := by
  induction row with
  | nil =>
    intro x0
    constructor
    · intro h; exact absurd h (by simp [rowCoordsWhere])
    · rintro ⟨j, _⟩; exact absurd j.isLt (by simp)
  | cons v vs ih =>
    intro x0
    simp only [rowCoordsWhere, List.mem_append]
    constructor
    · rintro (hin | hin)
      · by_cases h : pred v
        · rw [if_pos h] at hin
          simp only [List.mem_singleton] at hin
          exact ⟨⟨0, by simp⟩, by simpa using hin, by simpa using h⟩
        · rw [if_neg h] at hin
          exact absurd hin (by simp)
      · obtain ⟨j, hp, hpred⟩ := (ih (x0 + 1)).mp hin
        refine ⟨⟨j.val + 1, by simp⟩, ?_, by simpa using hpred⟩
        rw [hp]
        have : x0 + 1 + j.val = x0 + (j.val + 1) := by omega
        rw [this]
    · rintro ⟨j, hp, hpred⟩
      rcases j with ⟨jv, hjv⟩
      cases jv with
      | zero =>
        left
        have hv : pred v := by simpa using hpred
        rw [if_pos hv]
        simpa using hp
      | succ jv =>
        right
        apply (ih (x0 + 1)).mpr
        refine ⟨⟨jv, by simpa using hjv⟩, ?_, by simpa using hpred⟩
        rw [hp]
        have : x0 + (jv + 1) = x0 + 1 + jv := by omega
        rw [this]

lemma gridCoordsWhere_mem {α : Type} (pred : α → Prop) [DecidablePred pred]
    (L : List (List α)) (p : ℕ × ℕ) : ∀ y0 : ℕ,
    (p ∈ gridCoordsWhere pred y0 L ↔
      ∃ i : Fin L.length, ∃ j : Fin (L.get i).length,
        p = (j.val, y0 + i.val) ∧ pred ((L.get i).get j)) := by
  induction L with
  | nil =>
    intro y0
    constructor
    · intro h; exact absurd h (by simp [gridCoordsWhere])
    · rintro ⟨i, _⟩; exact absurd i.isLt (by simp)
  | cons row rest ih =>
    intro y0
    simp only [gridCoordsWhere, List.mem_append]
    constructor
    · rintro (hin | hin)
      · obtain ⟨j, hp, hpred⟩ := (rowCoordsWhere_mem pred y0 row p 0).mp hin
        exact ⟨⟨0, by simp⟩, j, by simpa using hp, hpred⟩
      · obtain ⟨i, j, hp, hpred⟩ := (ih (y0 + 1)).mp hin
        refine ⟨⟨i.val + 1, by simp⟩, j, ?_, hpred⟩
        rw [hp]
        have : y0 + 1 + i.val = y0 + (i.val + 1) := by omega
        rw [this]
    · rintro ⟨i, j, hp, hpred⟩
      rcases i with ⟨iv, hiv⟩
      cases iv with
      | zero =>
        left
        apply (rowCoordsWhere_mem pred y0 row p 0).mpr
        exact ⟨j, by simpa using hp, hpred⟩
      | succ iv =>
        right
        apply (ih (y0 + 1)).mpr
        refine ⟨⟨iv, by simpa using hiv⟩, j, ?_, hpred⟩
        rw [hp]
        have : y0 + (iv + 1) = y0 + 1 + iv := by omega
        rw [this]

lemma foldr_min_const {γ : Type} (sel : γ → ℕ) (v : ℕ) (l : List γ)
    (h : ∀ p ∈ l, sel p = v) : l.foldr (fun p a => min (sel p) a) v = v := by
  induction l with
  | nil => rfl
  | cons a t ih =>
    simp only [List.foldr_cons]
    rw [ih (fun p hp => h p (by simp [hp])), h a (by simp)]
    exact min_self v

lemma foldr_max_const {γ : Type} (sel : γ → ℕ) (v : ℕ) (l : List γ)
    (h : ∀ p ∈ l, sel p = v) : l.foldr (fun p a => max (sel p) a) v = v := by
  induction l with
  | nil => rfl
  | cons a t ih =>
    simp only [List.foldr_cons]
    rw [ih (fun p hp => h p (by simp [hp])), h a (by simp)]
    exact max_self v

lemma drop_take_one {α : Type} (l : List α) (n : ℕ) (d : α) (h : n < l.length) :
    (l.drop n).take 1 = [l.getD n d] := by
  rw [List.getD_eq_getElem _ _ h, List.drop_eq_getElem_cons h]
  rfl

lemma getD_get_eq {α : Type} (L : List (List α)) (i : Fin L.length)
    (j : Fin (L.get i).length) (a₀ : α) :
    (L.getD i.val []).getD j.val a₀ = (L.get i).get j := by
  have h1 : L.getD i.val [] = L.get i := by
    rw [List.getD_eq_getElem _ _ i.isLt, List.get_eq_getElem]
  rw [h1, List.getD_eq_getElem _ _ j.isLt]
  exact (List.get_eq_getElem _ _).symm

lemma cropBox_single {α : Type} (img : List (List α)) (a₀ : α)
    (h3 : 3 < img.length) (hr3 : 3 < (img.getD 3 []).length) :
    cropBox img (3, 3, 4, 4) = [[(img.getD 3 []).getD 3 a₀]] := by
  show ((img.drop 3).take (4 - 3)).map (fun row => (row.drop 3).take (4 - 3)) =
    [[(img.getD 3 []).getD 3 a₀]]
  have e1 : (4 : ℕ) - 3 = 1 := rfl
  rw [e1, drop_take_one img 3 [] h3]
  simp only [List.map_cons, List.map_nil]
  rw [drop_take_one _ 3 a₀ hr3]

lemma point_gt_coords {α : Type} (g : α → ℚ) (tol : ℚ) (img : List (List α)) :
    gridCoordsWhere (fun v : ℕ => v ≠ 0) 0 (point_gt tol (img.map (·.map g))) =
      gridCoordsWhere (fun pix : α => tol < g pix) 0 img := by
  unfold point_gt
  have h1 : (img.map (·.map g)).map
        (·.map (fun p : ℚ => if tol < p then (255 : ℕ) else 0)) =
      img.map (·.map (fun pix : α => if tol < g pix then (255 : ℕ) else 0)) := by
    rw [List.map_map]
    apply List.map_congr_left
    intro row _
    simp [List.map_map, Function.comp]
  rw [h1, gridCoordsWhere_map]
  apply gridCoordsWhere_congr
  intro pix
  by_cases h : tol < g pix
  · simp [h]
  · simp [h]

/-- C6. The background cropper: the bounding box of the pointed grayscale
view is empty exactly when no pixel's grayscale value strictly exceeds the
tolerance, in which case the original image is returned unchanged (instead
of failing); and on an 8x8 image (of any pixel type) whose unique pixel
exceeding the tolerance sits at row 3, column 3, the result is exactly that
single pixel of the original image. -/
theorem crop_black_background_spec :
    ∀ {α : Type} (g : α → ℚ) (tol : ℚ) (img : List (List α)) (a₀ : α),
      (getbbox (point_gt tol (img.map (·.map g))) = none ↔
        ∀ row ∈ img, ∀ pix ∈ row, g pix ≤ tol) ∧
      ((∀ row ∈ img, ∀ pix ∈ row, g pix ≤ tol) →
        crop_black_background g tol img = img) ∧
      (img.length = 8 → (∀ row ∈ img, row.length = 8) →
        (∀ y x : ℕ, y < 8 → x < 8 →
          (tol < g ((img.getD y []).getD x a₀) ↔ y = 3 ∧ x = 3)) →
        crop_black_background g tol img = [[(img.getD 3 []).getD 3 a₀]]) := by
  intro α g tol img a₀
  have hnone : getbbox (point_gt tol (img.map (·.map g))) = none ↔
      ∀ row ∈ img, ∀ pix ∈ row, g pix ≤ tol := by
    unfold getbbox
    rw [point_gt_coords g tol img]
    rcases hC : gridCoordsWhere (fun pix : α => tol < g pix) 0 img with _ | ⟨c, cs⟩
    · simp only
      constructor
      · intro _ row hrow pix hpix
        by_contra hgt
        push_neg at hgt
        obtain ⟨i, hi⟩ := List.mem_iff_get.mp hrow
        subst hi
        obtain ⟨j, hj⟩ := List.mem_iff_get.mp hpix
        subst hj
        have hmem : ((j.val, 0 + i.val) : ℕ × ℕ) ∈
            gridCoordsWhere (fun pix : α => tol < g pix) 0 img :=
          (gridCoordsWhere_mem _ img _ 0).mpr ⟨i, j, rfl, hgt⟩
        rw [hC] at hmem
        exact absurd hmem (List.not_mem_nil _)
      · intro _; trivial
    · simp only
      constructor
      · intro h; exact absurd h (by simp)
      · intro hall
        exfalso
        have hc : c ∈ gridCoordsWhere (fun pix : α => tol < g pix) 0 img := by
          rw [hC]; simp
        obtain ⟨i, j, _, hpred⟩ := (gridCoordsWhere_mem _ img c 0).mp hc
        exact absurd hpred
          (not_lt.mpr (hall (img.get i) (List.get_mem img i.val i.isLt) _
            (List.get_mem _ j.val j.isLt)))
  refine ⟨hnone, ?_, ?_⟩
  · intro hall
    have hb := hnone.mpr hall
    simp [crop_black_background, hb]
  · intro hlen hrows hchar
    have hmem33 : ((3, 3) : ℕ × ℕ) ∈
        gridCoordsWhere (fun pix : α => tol < g pix) 0 img := by
      apply (gridCoordsWhere_mem _ img _ 0).mpr
      have h3 : 3 < img.length := by omega
      have hr8 : (img.get ⟨3, h3⟩).length = 8 := hrows _ (List.get_mem img 3 h3)
      have h3r : 3 < (img.get ⟨3, h3⟩).length := by omega
      refine ⟨⟨3, h3⟩, ⟨3, h3r⟩, by simp, ?_⟩
      have hd := getD_get_eq img ⟨3, h3⟩ ⟨3, h3r⟩ a₀
      have := (hchar 3 3 (by omega) (by omega)).mpr ⟨rfl, rfl⟩
      rwa [hd] at this
    have hall33 : ∀ p ∈ gridCoordsWhere (fun pix : α => tol < g pix) 0 img,
        p = ((3, 3) : ℕ × ℕ) := by
      intro p hp
      obtain ⟨i, j, hpeq, hpred⟩ := (gridCoordsWhere_mem _ img p 0).mp hp
      have hi8 : i.val < 8 := by omega
      have hIg : img.get i ∈ img := by
        rw [List.get_eq_getElem]
        exact List.getElem_mem _
      have hj8 : j.val < 8 := by
        have := hrows _ hIg
        omega
      have hd := getD_get_eq img i j a₀
      have hij := (hchar i.val j.val hi8 hj8).mp (by rwa [hd])
      rw [hpeq, hij.1, hij.2]
    have hbbox : getbbox (point_gt tol (img.map (·.map g))) = some (3, 3, 4, 4) := by
      unfold getbbox
      rw [point_gt_coords g tol img]
      rcases hC : gridCoordsWhere (fun pix : α => tol < g pix) 0 img with _ | ⟨c, cs⟩
      · rw [hC] at hmem33
        exact absurd hmem33 (List.not_mem_nil _)
      · rw [hC] at hall33
        have hcv : c = ((3, 3) : ℕ × ℕ) := hall33 c (by simp)
        subst hcv
        simp only
        rw [foldr_min_const _ _ _ (fun p hp => by rw [hall33 p hp]),
          foldr_min_const _ _ _ (fun p hp => by rw [hall33 p hp]),
          foldr_max_const _ _ _ (fun p hp => by rw [hall33 p hp]),
          foldr_max_const _ _ _ (fun p hp => by rw [hall33 p hp])]
    have h3 : 3 < img.length := by omega
    have hr3 : 3 < (img.getD 3 []).length := by
      have : img.getD 3 [] ∈ img := by
        rw [List.getD_eq_getElem _ _ h3]
        exact List.getElem_mem _
      have := hrows _ this
      omega
    unfold crop_black_background
    rw [hbbox]
    exact cropBox_single img a₀ h3 hr3

/-- Witness for C6: an all-zero 8x8 grayscale image is returned unchanged,
and an 8x8 image whose only pixel above tolerance 10 is the value 200 at
row 3, column 3 is cropped to exactly that pixel. -/
theorem crop_black_background_spec_witness :
    crop_black_background (fun v : ℚ => v) 10
        (List.replicate 8 (List.replicate 8 (0 : ℚ))) =
      List.replicate 8 (List.replicate 8 (0 : ℚ)) ∧
    crop_black_background (fun v : ℚ => v) 10
        ((List.range 8).map (fun y => (List.range 8).map
          (fun x => if y = 3 ∧ x = 3 then (200 : ℚ) else 0))) = [[200]] := by
  constructor
  · apply (crop_black_background_spec (fun v : ℚ => v) 10 _ 0).2.1
    intro row hrow pix hpix
    rw [List.eq_of_mem_replicate hrow] at hpix
    rw [List.eq_of_mem_replicate hpix]
    norm_num
  · have hres := (crop_black_background_spec (fun v : ℚ => v) 10
      ((List.range 8).map (fun y => (List.range 8).map
        (fun x => if y = 3 ∧ x = 3 then (200 : ℚ) else 0))) 0).2.2
      (by simp)
      (by
        intro row hrow
        simp only [List.mem_map] at hrow
        obtain ⟨t, _, hrow⟩ := hrow
        simp [← hrow])
      (by
        intro y x hy hx
        rw [getD_map_range 8 _ y hy, getD_map_range 8 _ x hx]
        by_cases h : y = 3 ∧ x = 3
        · rw [if_pos h]
          refine ⟨fun _ => h, fun _ => by norm_num⟩
        · rw [if_neg h]
          exact ⟨fun h10 => absurd h10 (by norm_num), fun hc => absurd hc h⟩)
    rw [hres, getD_map_range 8 _ 3 (by omega), getD_map_range 8 _ 3 (by omega)]
    norm_num

/-! ### The v2 dithering pipeline and the end-to-end mid-gray scenario -/

lemma foldr_min_le_of_mem {γ : Type} (sel : γ → ℕ) (v : ℕ) (l : List γ) (p : γ)
    (hp : p ∈ l) : l.foldr (fun p a => min (sel p) a) v ≤ sel p := by
  induction l with
  | nil => exact absurd hp (List.not_mem_nil _)
  | cons a t ih =>
    rcases List.mem_cons.mp hp with h | h
    · subst h
      exact min_le_left _ _
    · exact le_trans (min_le_right _ _) (ih h)

lemma foldr_max_ge_of_mem {γ : Type} (sel : γ → ℕ) (v : ℕ) (l : List γ) (p : γ)
    (hp : p ∈ l) : sel p ≤ l.foldr (fun p a => max (sel p) a) v := by
  induction l with
  | nil => exact absurd hp (List.not_mem_nil _)
  | cons a t ih =>
    rcases List.mem_cons.mp hp with h | h
    · subst h
      exact le_max_left _ _
    · exact le_trans (ih h) (le_max_right _ _)

lemma foldr_max_le {γ : Type} (sel : γ → ℕ) (v : ℕ) (l : List γ) (B : ℕ)
    (hv : v ≤ B) (hl : ∀ p ∈ l, sel p ≤ B) :
    l.foldr (fun p a => max (sel p) a) v ≤ B := by
  induction l with
  | nil => exact hv
  | cons a t ih =>
    exact max_le (hl a (by simp)) (ih (fun p hp => hl p (by simp [hp])))

/-- On an image whose pixels all exceed the tolerance, the cropper finds
the full-image bounding box and returns the image unchanged. -/
lemma crop_full {α : Type} (g : α → ℚ) (tol : ℚ) (img : List (List α)) (h w : ℕ)
    (hlen : img.length = h) (hrows : ∀ row ∈ img, row.length = w)
    (hh : 1 ≤ h) (hw : 1 ≤ w)
    (hgt : ∀ row ∈ img, ∀ pix ∈ row, tol < g pix) :
    crop_black_background g tol img = img := by
  have hpos : 0 < img.length := by omega
  have hmemall : ∀ (i : Fin img.length) (j : Fin (img.get i).length),
      ((j.val, i.val) : ℕ × ℕ) ∈ gridCoordsWhere (fun pix : α => tol < g pix) 0 img := by
    intro i j
    apply (gridCoordsWhere_mem _ img _ 0).mpr
    exact ⟨i, j, by simp,
      hgt _ (List.get_mem img i.val i.isLt) _ (List.get_mem _ j.val j.isLt)⟩
  have hb : ∀ p ∈ gridCoordsWhere (fun pix : α => tol < g pix) 0 img,
      p.1 ≤ w - 1 ∧ p.2 ≤ h - 1 := by
    intro p hp
    obtain ⟨i, j, hpeq, _⟩ := (gridCoordsWhere_mem _ img p 0).mp hp
    have hIg : img.get i ∈ img := by
      rw [List.get_eq_getElem]
      exact List.getElem_mem _
    have hjw : j.val < w := by
      have := hrows _ hIg
      omega
    have hih : i.val < h := by
      have := i.isLt
      omega
    rw [hpeq]
    exact ⟨by simp; omega, by simp; omega⟩
  have hrow0 : (img.get ⟨0, hpos⟩).length = w := hrows _ (List.get_mem img 0 hpos)
  have hm00 := hmemall ⟨0, hpos⟩ ⟨0, by omega⟩
  have hmw := hmemall ⟨0, hpos⟩ ⟨w - 1, by omega⟩
  have hlast : h - 1 < img.length := by omega
  have hrowl : (img.get ⟨h - 1, hlast⟩).length = w := hrows _ (List.get_mem img _ hlast)
  have hmh := hmemall ⟨h - 1, hlast⟩ ⟨0, by omega⟩
  have hbbox : getbbox (point_gt tol (img.map (·.map g))) = some (0, 0, w, h) := by
    unfold getbbox
    rw [point_gt_coords g tol img]
    rcases hC : gridCoordsWhere (fun pix : α => tol < g pix) 0 img with _ | ⟨c, cs⟩
    · rw [hC] at hm00
      exact absurd hm00 (List.not_mem_nil _)
    · simp only
      rw [hC] at hm00 hmw hmh hb
      have hcC : c ∈ c :: cs := by simp
      have hminx : (c :: cs).foldr (fun p a => min p.1 a) c.1 = 0 := by
        have hle : (c :: cs).foldr (fun p a => min p.1 a) c.1 ≤ 0 :=
          foldr_min_le_of_mem Prod.fst c.1 (c :: cs) _ hm00
        omega
      have hminy : (c :: cs).foldr (fun p a => min p.2 a) c.2 = 0 := by
        have hle : (c :: cs).foldr (fun p a => min p.2 a) c.2 ≤ 0 :=
          foldr_min_le_of_mem Prod.snd c.2 (c :: cs) _ hm00
        omega
      have hmaxx : (c :: cs).foldr (fun p a => max p.1 a) c.1 = w - 1 := by
        have hge : w - 1 ≤ (c :: cs).foldr (fun p a => max p.1 a) c.1 :=
          foldr_max_ge_of_mem Prod.fst c.1 (c :: cs) _ hmw
        have hle := foldr_max_le Prod.fst c.1 (c :: cs) (w - 1) (hb c hcC).1
          (fun p hp => (hb p hp).1)
        omega
      have hmaxy : (c :: cs).foldr (fun p a => max p.2 a) c.2 = h - 1 := by
        have hge : h - 1 ≤ (c :: cs).foldr (fun p a => max p.2 a) c.2 :=
          foldr_max_ge_of_mem Prod.snd c.2 (c :: cs) _ hmh
        have hle := foldr_max_le Prod.snd c.2 (c :: cs) (h - 1) (hb c hcC).2
          (fun p hp => (hb p hp).2)
        omega
      rw [hminx, hminy, hmaxx, hmaxy,
        show w - 1 + 1 = w by omega, show h - 1 + 1 = h by omega]
  unfold crop_black_background
  rw [hbbox]
  show ((img.drop 0).take (h - 0)).map (fun row => (row.drop 0).take (w - 0)) = img
  simp only [List.drop_zero, Nat.sub_zero]
  rw [← hlen, List.take_length]
  have hcong : ∀ row ∈ img, row.take w = row := by
    intro row hr
    rw [← hrows row hr, List.take_length]
  rw [List.map_congr_left hcong]
  exact List.map_id img

lemma cropGrid_exact_hw (A : List (List ℚ)) (h w : ℕ) (hA : A.length = h)
    (hrows : ∀ row ∈ A, row.length = w) : cropGrid A h w = A := by
  unfold cropGrid
  rw [← hA, List.take_length]
  have hcong : ∀ row ∈ A, row.take w = row := by
    intro row hr
    rw [← hrows row hr, List.take_length]
  rw [List.map_congr_left hcong]
  exact List.map_id A

lemma npTile_row_length (M : List (List ℚ)) (m r c : ℕ)
    (hrows : ∀ row ∈ M, row.length = m) :
    ∀ row ∈ npTile M r c, row.length = c * m := by
  intro row hrow
  simp only [npTile, List.mem_map] at hrow
  obtain ⟨row1, hrow1, hroweq⟩ := hrow
  have hrow1M : row1 ∈ M := by
    rcases List.mem_flatten.mp hrow1 with ⟨l, hl, hmem⟩
    rwa [(List.eq_of_mem_replicate hl : l = M)] at hmem
  rw [← hroweq, flatten_replicate_length, hrows row1 hrow1M]

/-- Embedding of `apply_ordered_dithering` from `compress-backgrounds-v2.py`
on the normalized grayscale buffer (the `img_array` level, entries
`byte / 255`); returns the white/black buffer, `none` modelling the
`ValueError` on an unknown pattern name. -/
def apply_ordered_dithering (img : List (List ℚ)) (pattern : String) :
    Option (List (List Bool)) :=
  let height := img.length
  let width := (img.getD 0 []).length
  if pattern = "threshold" then
    some (img.map (·.map (fun gv => decide (gv > 1/2))))
  else if pattern = "checkerboard" then
    some (thresholdImage img ((List.range height).map (fun y =>
      (List.range width).map (fun x =>
        if (y % 2 = 0 ∧ x % 2 = 0) ∨ (y % 2 = 1 ∧ x % 2 = 1) then 1/2 else 0))))
  else if pattern = "bayer2" ∨ pattern = "bayer4" ∨ pattern = "bayer8" then
    let ms : ℕ := if pattern = "bayer2" then 2 else if pattern = "bayer4" then 4 else 8
    some (thresholdImage img
      (tiled_threshold_v2 (create_bayer_matrix_v2 ms) ms height width))
  else none

/-- Number of cells of tile `(ty, tx)` (4x4 tiles) of buffer `D` equal to `b`. -/
def countInTile (D : List (List Bool)) (b : Bool) (ty tx : ℕ) : ℕ :=
  (((List.range 4).map (fun dy => (List.range 4).map (fun dx =>
    (D.getD (4 * ty + dy) []).getD (4 * tx + dx) false))).flatten).count b

lemma replicate_getD {α : Type} (n i : ℕ) (a : α) (d : α) (hi : i < n) :
    (List.replicate n a).getD i d = a := by
  rw [List.getD_eq_getElem _ _ (by simpa using hi), List.getElem_replicate]

lemma v2_four_len : (create_bayer_matrix_v2 4).length = 4 := by
  rw [v2_four_eval]
  rfl

lemma v2_four_rows : ∀ row ∈ create_bayer_matrix_v2 4, row.length = 4 := by
  rw [v2_four_eval]
  intro row hr
  fin_cases hr <;> rfl

lemma apply_bayer4 (img : List (List ℚ)) :
    apply_ordered_dithering img "bayer4" =
      some (thresholdImage img (tiled_threshold_v2 (create_bayer_matrix_v2 4) 4
        img.length (img.getD 0 []).length)) := rfl

lemma bayer4_cell_parity : ∀ dy dx : ℕ, dy < 4 → dx < 4 →
    (decide ((1 : ℚ)/2 > matGet (create_bayer_matrix_v2 4) dy dx) =
      decide ((dy + dx) % 2 = 0)) := by
  intro dy dx hdy hdx
  rw [decide_eq_decide, v2_four_eval]
  interval_cases dy <;> interval_cases dx <;> norm_num [matGet]

/-- C7. The 16x16 uniform mid-gray (normalized intensity exactly 1/2, i.e.
gray byte 127.5 on the 0-255 scale, above tolerance 10) scenario with
pattern `bayer4`: the cropper returns the full image; the 4x4 Bayer matrix
tiles the 16x16 canvas exactly (4 full tiles per axis, no partial crop);
`apply_ordered_dithering` dispatches to that tiled comparison; and every
4x4 tile of the result holds exactly 8 white and 8 black cells. -/
theorem end_to_end_midgray_bayer4 :
    crop_black_background (fun v : ℚ => 255 * v) 10
        (List.replicate 16 (List.replicate 16 ((1 : ℚ)/2))) =
      List.replicate 16 (List.replicate 16 ((1 : ℚ)/2)) ∧
    tiled_threshold_v2 (create_bayer_matrix_v2 4) 4 16 16 =
      npTile (create_bayer_matrix_v2 4) 4 4 ∧
    apply_ordered_dithering (List.replicate 16 (List.replicate 16 ((1 : ℚ)/2)))
        "bayer4" =
      some (thresholdImage (List.replicate 16 (List.replicate 16 ((1 : ℚ)/2)))
        (tiled_threshold_v2 (create_bayer_matrix_v2 4) 4 16 16)) ∧
    (∀ ty tx : Fin 4,
      countInTile (thresholdImage (List.replicate 16 (List.replicate 16 ((1 : ℚ)/2)))
        (tiled_threshold_v2 (create_bayer_matrix_v2 4) 4 16 16)) true ty.val tx.val
        = 8 ∧
      countInTile (thresholdImage (List.replicate 16 (List.replicate 16 ((1 : ℚ)/2)))
        (tiled_threshold_v2 (create_bayer_matrix_v2 4) 4 16 16)) false ty.val tx.val
        = 8) := by
  have hreprows : ∀ row ∈ List.replicate 16 (List.replicate 16 ((1 : ℚ)/2)),
      row.length = 16 := by
    intro row hr
    rw [List.eq_of_mem_replicate hr]
    simp
  refine ⟨?_, ?_, ?_, ?_⟩
  · apply crop_full (fun v : ℚ => 255 * v) 10 _ 16 16 (by simp) hreprows
      (by omega) (by omega)
    intro row hrow pix hpix
    rw [List.eq_of_mem_replicate hrow] at hpix
    rw [List.eq_of_mem_replicate hpix]
    norm_num
  · unfold tiled_threshold_v2
    rw [show (16 + 4 - 1) / 4 = 4 from by norm_num]
    apply cropGrid_exact_hw
    · rw [npTile_length, v2_four_len]
    · have := npTile_row_length (create_bayer_matrix_v2 4) 4 4 4 v2_four_rows
      intro row hrow
      rw [this row hrow]
  · rw [apply_bayer4]
    rw [show (List.replicate 16 (List.replicate 16 ((1 : ℚ)/2))).length = 16 from
      by simp]
    rw [show ((List.replicate 16 (List.replicate 16 ((1 : ℚ)/2))).getD 0 []).length
      = 16 from by simp]
  · intro ty tx
    have hspec := tile_crop_spec (create_bayer_matrix_v2 4) 4 ((16 + 4 - 1) / 4)
      ((16 + 4 - 1) / 4) 16 16 v2_four_len v2_four_rows
      (by norm_num) (by norm_num)
    have hTdef : tiled_threshold_v2 (create_bayer_matrix_v2 4) 4 16 16 =
        cropGrid (npTile (create_bayer_matrix_v2 4) ((16 + 4 - 1) / 4)
          ((16 + 4 - 1) / 4)) 16 16 := rfl
    have hcell : ∀ dy dx : ℕ, dy < 4 → dx < 4 →
        ((thresholdImage (List.replicate 16 (List.replicate 16 ((1 : ℚ)/2)))
          (tiled_threshold_v2 (create_bayer_matrix_v2 4) 4 16 16)).getD
            (4 * ty.val + dy) []).getD (4 * tx.val + dx) false =
          decide ((dy + dx) % 2 = 0) := by
      intro dy dx hdy hdx
      have hy16 : 4 * ty.val + dy < 16 := by have := ty.isLt; omega
      have hx16 : 4 * tx.val + dx < 16 := by have := tx.isLt; omega
      have hTlen : (tiled_threshold_v2 (create_bayer_matrix_v2 4) 4 16 16).length
          = 16 := by rw [hTdef]; exact hspec.1
      have hTrow : (tiled_threshold_v2 (create_bayer_matrix_v2 4) 4 16 16).getD
          (4 * ty.val + dy) [] ∈
            tiled_threshold_v2 (create_bayer_matrix_v2 4) 4 16 16 := by
        rw [List.getD_eq_getElem _ _ (by omega)]
        exact List.getElem_mem _
      have hTrowlen : ((tiled_threshold_v2 (create_bayer_matrix_v2 4) 4 16 16).getD
          (4 * ty.val + dy) []).length = 16 := by
        rw [hTdef] at hTrow ⊢
        exact hspec.2.1 _ hTrow
      unfold thresholdImage
      rw [zipWith_getD _ _ _ (4 * ty.val + dy) (by simpa using hy16)
        (by rw [hTlen]; exact hy16) [] []]
      rw [zipWith_getD _ _ _ (4 * tx.val + dx)
        (by rw [replicate_getD _ _ _ _ hy16]; simpa using hx16)
        (by rw [hTrowlen]; exact hx16) 0 0]
      rw [replicate_getD _ _ _ _ hy16, replicate_getD _ _ _ _ hx16]
      have hTc : matGet (tiled_threshold_v2 (create_bayer_matrix_v2 4) 4 16 16)
          (4 * ty.val + dy) (4 * tx.val + dx) =
          matGet (create_bayer_matrix_v2 4)
            ((4 * ty.val + dy) % 4) ((4 * tx.val + dx) % 4) := by
        rw [hTdef]
        exact hspec.2.2 _ _ hy16 hx16
      have hmody : (4 * ty.val + dy) % 4 = dy := by omega
      have hmodx : (4 * tx.val + dx) % 4 = dx := by omega
      unfold matGet at hTc
      rw [hTc, hmody, hmodx]
      exact bayer4_cell_parity dy dx hdy hdx
    have hrw : ∀ b : Bool,
        countInTile (thresholdImage (List.replicate 16 (List.replicate 16 ((1 : ℚ)/2)))
          (tiled_threshold_v2 (create_bayer_matrix_v2 4) 4 16 16)) b ty.val tx.val =
        (((List.range 4).map (fun dy => (List.range 4).map (fun dx =>
          decide ((dy + dx) % 2 = 0)))).flatten).count b := by
      intro b
      unfold countInTile
      congr 2
      apply List.map_congr_left
      intro dy hdy
      apply List.map_congr_left
      intro dx hdx
      exact hcell dy dx (List.mem_range.mp hdy) (List.mem_range.mp hdx)
    rw [hrw true, hrw false]
    exact ⟨by decide, by decide⟩

/-! ### Batch-driver exit codes -/

/-- Exit-code logic of `main` in `compress-backgrounds.py`: 1 when the
source directory is missing, 1 when no PNG files match, otherwise
`0 if failed == 0 else 1`; `results` lists each file's success. -/
def main_exit_v1 (source_exists : Bool) (results : List Bool) : ℕ :=
  if source_exists = false then 1
  else if results = [] then 1
  else if results.count false = 0 then 0 else 1

/-- Exit-code logic of the batch path of `main` in
`compress-backgrounds-v2.py`, identical to v1 (the `--preview` path returns
0 before any batch work and is outside the batch-run claim). -/
def main_exit_v2 (source_exists : Bool) (results : List Bool) : ℕ :=
  if source_exists = false then 1
  else if results = [] then 1
  else if results.count false = 0 then 0 else 1

/-- Exit-code logic of `main` in `compress-backgrounds-v3.py`: 1 when the
source directory is missing or no PNG files match, but the final statement
is `return 0` unconditionally — per-file failures never reach the exit
code. -/
def main_exit_v3 (source_exists : Bool) (results : List Bool) : ℕ :=
  if source_exists = false then 1
  else if results = [] then 1
  else 0

/-- C9 counterexample: a batch run of v3 in which the single file fails
exits 0, while the claim (and v1 on the same run) prescribe exit code 1. -/
theorem v3_exit_zero_on_failure_counterexample :
    main_exit_v3 true [false] = 0 ∧ main_exit_v1 true [false] = 1 ∧ (0 : ℕ) ≠ 1 := by
  refine ⟨by decide, by decide, by norm_num⟩

/-- C9 amended: v1 and v2 exit 0 exactly when the source directory exists,
at least one PNG file matched and no file failed (1 otherwise); v3 exits 0
whenever the source directory exists and a file matched, even when files
failed (1 only for a missing directory or no matching files). -/
theorem driver_exit_codes :
    ∀ (source_exists : Bool) (results : List Bool),
      main_exit_v1 source_exists results =
        (if source_exists = true ∧ results ≠ [] ∧ results.count false = 0
         then 0 else 1) ∧
      main_exit_v2 source_exists results =
        (if source_exists = true ∧ results ≠ [] ∧ results.count false = 0
         then 0 else 1) ∧
      main_exit_v3 source_exists results =
        (if source_exists = true ∧ results ≠ [] then 0 else 1) := by
  intro se results
  cases se <;> by_cases hr : results = [] <;>
    by_cases hc : results.count false = 0 <;>
      simp [main_exit_v1, main_exit_v2, main_exit_v3, hr, hc]

end MIW
